import Mathlib

/-!
Verification of the DocuBot crawl pipeline (`backend/services/web_crawler.py`).

The crawler is embedded shallowly:
* the HTTP layer is an oracle `f : String → Fetch` mapping a URL to either a
  raised exception or a response with a status code and page data;
* `urlparse(...).netloc` is an oracle `netloc : String → Option String`,
  `none` modelling a raised `ValueError`;
* the per-task critical section of `crawl_single_url` (the membership test on
  `self.visited_urls` followed by `add`) contains no `await`, so under asyncio
  it is atomic; a round of gathered tasks is modelled as a sequential pass over
  the task list (`runTasks`).  Theorems about failure isolation quantify over
  an arbitrary execution order.
* the configuration corresponds to `settings.use_mcp_for_crawling = False`
  (no MCP client), so every fetch goes through `crawl_url_fallback`.
-/

/-- The parts of a fetched page that the crawl logic consumes: the extracted
main text (`content_data['text']`) and the extracted link URLs (the `url`
fields of `_extract_links`' dictionaries). -/
structure PageData where
  text : String
  links : List String
deriving DecidableEq

/-- Outcome of one `session.get`: either an exception raised inside the `try`
block, or a response carrying an HTTP status and the page data that the
extraction pipeline would produce from its HTML. -/
inductive Fetch where
  | exc (msg : String)
  | resp (status : Nat) (page : PageData)
deriving DecidableEq

/-- The result dictionary produced for one URL (the fields the crawl logic
reads: `url`, `success`, `error`, `content`, `links`, `method`). -/
structure PageResult where
  url : String
  success : Bool
  error : Option String
  content : String
  links : List String
  method : String
deriving DecidableEq

/-- `crawl_url_fallback` (web_crawler.py lines 134-221): a non-200 status is
returned as `success=False` with error `f"HTTP {status}"`; a raised exception
is caught and returned as `success=False` with the exception text; a 200
response yields `success=True` with the extracted content and links. -/
def crawl_url_fallback (f : String → Fetch) (url : String) : PageResult :=
  match f url with
  | Fetch.exc msg =>
      { url := url, success := false, error := some msg, content := "",
        links := [], method := "fallback" }
  | Fetch.resp status page =>
      if status ≠ 200 then
        { url := url, success := false, error := some ("HTTP " ++ toString status),
          content := "", links := [], method := "fallback" }
      else
        { url := url, success := true, error := none, content := page.text,
          links := page.links, method := "fallback" }

/-- The `"Already visited"` short-circuit result of `crawl_single_url`
(lines 806-812). -/
def skipResult (url : String) : PageResult :=
  { url := url, success := false, error := some "Already visited",
    content := "", links := [], method := "skip" }

/-- The fetch for `u` fails: the request raises or returns a non-200 status. -/
def fetchFails (f : String → Fetch) (u : String) : Prop :=
  ∀ p, f u ≠ Fetch.resp 200 p

/-- The fetch for `u` succeeds with a 200 response. -/
def fetchOk (f : String → Fetch) (u : String) : Prop :=
  ∃ p, f u = Fetch.resp 200 p

/-- Contiguous-sublist test on lists (helper for the substring test). -/
def listInfixOf [DecidableEq α] (pat : List α) : List α → Bool
  | [] => pat.isEmpty
  | a :: rest => pat.isPrefixOf (a :: rest) || listInfixOf pat rest

/-- Python's `pattern in link` substring test. -/
def pyIn (pat s : String) : Bool :=
  listInfixOf pat.toList s.toList

/-- Python's `str.strip()`: drop leading and trailing whitespace. -/
def pyStrip (s : String) : String :=
  String.mk
    (((s.toList.dropWhile Char.isWhitespace).reverse.dropWhile
      Char.isWhitespace).reverse)

/-- `_should_crawl_link` (lines 825-877).  `netloc` models
`urlparse(·).netloc` with `none` for a raised exception; `sdo` is
`settings.same_domain_only`; `base_domain = some d` with `d ≠ ""` is the
truthy case of `if base_domain:`, any other value falls back to re-deriving
the domain from `base_url`; a raised parse error anywhere in the `try` block
returns `False`. -/
def should_crawl_link (netloc : String → Option String) (sdo : Bool)
    (visited : List String) (link base_url : String)
    (include_patterns exclude_patterns : List String)
    (base_domain : Option String) : Bool :=
  if link ∈ visited then false
  else
    match (match base_domain with
      | some bd =>
          if bd ≠ "" then
            match netloc link with
            | some link_domain => some (!(sdo && bd ≠ link_domain))
            | none => none
          else
            match netloc base_url, netloc link with
            | some bd2, some link_domain => some (!(sdo && bd2 ≠ link_domain))
            | _, _ => none
      | none =>
          match netloc base_url, netloc link with
          | some bd2, some link_domain => some (!(sdo && bd2 ≠ link_domain))
          | _, _ => none : Option Bool) with
    | none => false
    | some false => false
    | some true =>
        if exclude_patterns.any (fun p => pyIn p link) then false
        else if include_patterns ≠ [] then
          include_patterns.any (fun p => pyIn p link)
        else true

/-- The default `exclude_patterns` installed when the caller passes `None`
(lines 737-744). -/
def default_exclude_patterns : List String :=
  ["#", "mailto:", "javascript:", "tel:", "sms:", "ftp:",
   ".pdf", ".jpg", ".jpeg", ".png", ".gif", ".svg", ".webp", ".ico",
   ".css", ".js", ".json", ".xml", ".zip", ".tar", ".gz",
   ".mp4", ".avi", ".mov", ".wmv", ".flv", ".webm",
   ".mp3", ".wav", ".ogg", ".aac", ".flac"]

/-- The configuration values the crawl reads from `config.settings`. -/
structure Settings where
  same_domain_only : Bool
  max_pages_per_domain : Nat
  max_crawl_depth : Nat
deriving DecidableEq

/-- Python's `x or default` for an optional non-negative integer argument:
both `None` and `0` are falsy and select the default (lines 728-729). -/
def pyOrNat (x : Option Nat) (d : Nat) : Nat :=
  match x with
  | none => d
  | some n => if n = 0 then d else n

/-- One round of gathered `crawl_single_url` tasks (lines 756-764, 796-823).
Each task's critical section — the membership test on `visited_urls` followed
by `add` — contains no suspension point and is therefore atomic; the round is
modelled as a sequential pass over the tasks in execution order.  Returns
(results in execution order, URLs actually fetched in order, final visited
list).  A URL already visited yields the `"Already visited"` skip result and
no fetch; otherwise the URL is added to visited *before* its fetch and the
task returns `crawl_url_fallback`. -/
def runTasks (f : String → Fetch) (visited : List String) :
    List String → List PageResult × List String × List String
  | [] => ([], [], visited)
  | url :: rest =>
      if url ∈ visited then
        let t := runTasks f visited rest
        (skipResult url :: t.1, t.2.1, t.2.2)
      else
        let t := runTasks f (url :: visited) rest
        (crawl_url_fallback f url :: t.1, url :: t.2.1, t.2.2)

/-- The link-enqueue loop run for one successful result (lines 776-788): each
link URL is appended to the queue when it is non-empty (Python truthiness),
not in the visited set, and accepted by `_should_crawl_link`.  The visited
set is *not* modified here. -/
def enqueue_from_result (netloc : String → Option String) (sdo : Bool)
    (start_url base_domain : String) (incl excl : List String)
    (visited : List String) (r : PageResult) (queue : List String) :
    List String :=
  r.links.foldl
    (fun q link =>
      if link ≠ "" ∧ link ∉ visited ∧
          should_crawl_link netloc sdo visited link start_url incl excl
            (some base_domain) = true then
        q ++ [link]
      else q)
    queue

/-- The per-round merge loop over gathered results (lines 766-790): a
successful result is appended to `crawled_pages` and, while
`current_depth < max_depth - 1`, its links are enqueued; a failed result is
skipped and processing continues with the remaining results.  Returns the
updated (crawled, queue); the visited set is read but never written. -/
def mergeRound (netloc : String → Option String) (sdo : Bool)
    (start_url base_domain : String) (max_depth : Nat) (incl excl : List String)
    (d : Nat) (visited : List String) :
    List PageResult → List PageResult → List String →
      List PageResult × List String
  | [], crawled, queue => (crawled, queue)
  | r :: rs, crawled, queue =>
      if r.success then
        let queue' :=
          if d < max_depth - 1 then
            enqueue_from_result netloc sdo start_url base_domain incl excl
              visited r queue
          else queue
        mergeRound netloc sdo start_url base_domain max_depth incl excl d
          visited rs (crawled ++ [r]) queue'
      else
        mergeRound netloc sdo start_url base_domain max_depth incl excl d
          visited rs crawled queue

/-- Observable outcome of a crawl: the returned `crawled_pages`, the final
`visited_urls` and `crawl_queue`, the trace of fetch events `(depth, url)` in
dispatch order, and the batch processed by each executed round. -/
structure CrawlOutcome where
  crawled : List PageResult
  visited : List String
  queue : List String
  trace : List (Nat × String)
  batches : List (List String)
deriving DecidableEq

/-- The all-empty outcome, used as the default of `Option.getD`. -/
def defaultOutcome : CrawlOutcome :=
  { crawled := [], visited := [], queue := [], trace := [], batches := [] }

/-- The `while` loop of `crawl_website_recursive` (lines 751-792).  The guard
is `crawl_queue ≠ [] ∧ len(crawled_pages) < max_pages ∧
current_depth < max_depth`; `fuel = max_depth - current_depth` makes the
third conjunct structural.  Each iteration copies and clears the queue,
gathers one task per batch URL, merges the results, and increments the
depth. -/
def crawl_loop (f : String → Fetch) (netloc : String → Option String)
    (sdo : Bool) (start_url base_domain : String) (max_pages max_depth : Nat)
    (incl excl : List String) :
    Nat → List String → List String → List PageResult → Nat → CrawlOutcome
  | 0, visited, queue, crawled, _ =>
      { crawled := crawled, visited := visited, queue := queue,
        trace := [], batches := [] }
  | fuel + 1, visited, queue, crawled, d =>
      if queue = [] ∨ ¬ crawled.length < max_pages then
        { crawled := crawled, visited := visited, queue := queue,
          trace := [], batches := [] }
      else
        let batch := queue
        let t := runTasks f visited batch
        let m := mergeRound netloc sdo start_url base_domain max_depth incl
          excl d t.2.2 t.1 crawled []
        let rest := crawl_loop f netloc sdo start_url base_domain max_pages
          max_depth incl excl fuel t.2.2 m.2 m.1 (d + 1)
        { crawled := rest.crawled, visited := rest.visited,
          queue := rest.queue,
          trace := t.2.1.map (fun u => (d, u)) ++ rest.trace,
          batches := batch :: rest.batches }

/-- `crawl_website_recursive` (lines 706-794): resolve the page and depth
budgets with Python `or`-defaulting, derive `base_domain` from the seed URL
(`none`, i.e. a raised parse error, propagates to the caller), default the
include list to `[]` and the exclude list to `default_exclude_patterns`,
clear the visited set, seed the queue with `start_url`, and run the round
loop from depth 0. -/
def crawl_website_recursive (f : String → Fetch)
    (netloc : String → Option String) (s : Settings) (start_url : String)
    (max_pages_arg max_depth_arg : Option Nat)
    (include_arg exclude_arg : Option (List String)) : Option CrawlOutcome :=
  let max_pages := pyOrNat max_pages_arg s.max_pages_per_domain
  let max_depth := pyOrNat max_depth_arg s.max_crawl_depth
  let incl := include_arg.getD []
  let excl := exclude_arg.getD default_exclude_patterns
  (netloc start_url).map (fun base_domain =>
    crawl_loop f netloc s.same_domain_only start_url base_domain max_pages
      max_depth incl excl max_depth [] [start_url] [] 0)

/-- The length of the last element of a list of batches (0 when empty). -/
def lastLen : List (List String) → Nat
  | [] => 0
  | [b] => b.length
  | _ :: bs => lastLen bs

/-- The prioritized content-container selector list of
`_extract_comprehensive_content` (lines 230-234). -/
def content_selectors : List String :=
  ["main", "article", ".content", ".main-content", ".documentation",
   ".docs", ".post", ".entry", ".page-content", ".body-content",
   "#content", "#main", "#primary", ".primary", ".main"]

/-- The selector scan of `_extract_comprehensive_content` (lines 236-251),
restricted to its plain-text accumulator.  `select` maps a selector to the
extracted texts of its matched elements (an element is represented by its
`get_text(separator='\n', strip=True)` result); the scan keeps the *longest*
text seen so far, updating only on a strict length increase. -/
def selector_best (select : String → List String) : String :=
  content_selectors.foldl
    (fun acc sel =>
      (select sel).foldl
        (fun a t => if t.length > a.length then t else a) acc)
    ""

/-- The main-text result of `_extract_comprehensive_content`
(lines 236-256): the longest selector text, or the whole-document text when
that longest text strips to empty.  The parallel markdown accumulator and the
structured extraction do not influence this plain-text body and are not
modelled. -/
def extract_main_content (select : String → List String)
    (full_text : String) : String :=
  let main_content := selector_best select
  if pyStrip main_content = "" then full_text else main_content

/-- Modelled from the spec: the "first selector that yields non-empty text
wins" strategy that §4.2/§9 of the spec and claim C8 describe, for comparison
with `extract_main_content`. -/
def first_nonempty_selector_text (select : String → List String)
    (full_text : String) : String :=
  match content_selectors.findSome?
      (fun sel => (select sel).find? (fun t => pyStrip t ≠ "")) with
  | some t => t
  | none => full_text

/-- The row extraction of `_convert_table_to_markdown` (lines 400-407): one
cell-text list per `<tr>`, rows with no cells dropped. -/
def table_rows (trs : List (List String)) : List (List String) :=
  trs.filter (fun cells => ¬ cells = [])

/-- The `while len(row) < len(header): row.append('')` padding loop
(lines 424-426). -/
def padRow (row : List String) (n : Nat) : List String :=
  if row.length < n then padRow (row ++ [""]) n else row
termination_by n - row.length
decreasing_by simp_all; omega

/-- Python's `sep.join(parts)`. -/
def pyJoin (sep : String) : List String → String
  | [] => ""
  | [x] => x
  | x :: rest => x ++ sep ++ pyJoin sep rest

/-- The markdown lines built by `_convert_table_to_markdown`
(lines 412-427): the first extracted row as header, one `---` separator row
sized to the header, then the remaining rows padded to the header width. -/
def table_markdown_parts (trs : List (List String)) : List String :=
  match table_rows trs with
  | [] => []
  | header :: rest =>
      ("| " ++ pyJoin " | " header ++ " |")
        :: ("| " ++ pyJoin " | " (List.replicate header.length "---")
              ++ " |")
        :: rest.map (fun row =>
              "| " ++ pyJoin " | " (padRow row header.length) ++ " |")

/-- `_convert_table_to_markdown` (lines 395-429): empty tables yield `""`,
otherwise the lines joined by newlines with a trailing newline. -/
def convert_table_to_markdown (trs : List (List String)) : String :=
  if table_rows trs = [] then ""
  else pyJoin "\n" (table_markdown_parts trs) ++ "\n"

/-- A host oracle under which every URL parses to the host `"d"`. -/
def netlocD : String → Option String := fun _ => some "d"

/-- A configuration with the same-domain restriction off. -/
def settingsNoSdo : Settings :=
  { same_domain_only := false, max_pages_per_domain := 5000,
    max_crawl_depth := 3 }

/-- A site where the seed `"s"` links to three pages and every page fetch
returns HTTP 200. -/
def fetchC2 : String → Fetch := fun u =>
  if u = "s" then Fetch.resp 200 { text := "seed", links := ["a", "b", "c"] }
  else Fetch.resp 200 { text := "page", links := [] }

/-- The crawl of `fetchC2` from `"s"` with `max_pages = 2`, `max_depth = 2`,
empty include and exclude lists. -/
def c2_out : CrawlOutcome :=
  (crawl_website_recursive fetchC2 netlocD settingsNoSdo "s" (some 2) (some 2)
    (some []) (some [])).getD defaultOutcome

/-- A site where the seed `"s"` links to `"a"` and `"b"`, and both of those
pages link to the same URL `"u"`. -/
def fetchC3 : String → Fetch := fun u =>
  if u = "s" then Fetch.resp 200 { text := "seed", links := ["a", "b"] }
  else Fetch.resp 200 { text := "page", links := ["u"] }

/-- The crawl of `fetchC3` from `"s"` with `max_pages = 3`, `max_depth = 3`,
empty include and exclude lists: it stops (page budget) right after the round
in which both `"a"` and `"b"` discovered `"u"`. -/
def c3_out : CrawlOutcome :=
  (crawl_website_recursive fetchC3 netlocD settingsNoSdo "s" (some 3) (some 3)
    (some []) (some [])).getD defaultOutcome

/-- A fetch oracle where `"bad"` answers HTTP 500 and every other URL answers
HTTP 200. -/
def fetchC1 : String → Fetch := fun u =>
  if u = "bad" then Fetch.resp 500 { text := "", links := [] }
  else Fetch.resp 200 { text := "ok", links := [] }

/-- A server that answers every request with HTTP 201 Created. -/
def fetch201 : String → Fetch := fun _ =>
  Fetch.resp 201 { text := "created", links := [] }

/-- A document in which the selector `"main"` matches one element with text
`"a"` and the selector `"article"` matches one element with the longer text
`"bb"`. -/
def c8_select : String → List String := fun sel =>
  if sel = "main" then ["a"] else if sel = "article" then ["bb"] else []

/-- The crawl of `fetchC3` from `"s"` with a page budget of 5: `"u"` is
enqueued twice in round 1 and its round-2 batch is `["u", "u"]`, yet it is
fetched only once. -/
def c4_out : CrawlOutcome :=
  (crawl_website_recursive fetchC3 netlocD settingsNoSdo "s" (some 5) (some 3)
    (some []) (some [])).getD defaultOutcome

/-- The crawl of `fetchC2` from `"s"` with `max_depth = 1`: only the seed is
fetched and nothing is ever enqueued. -/
def c10_out : CrawlOutcome :=
  (crawl_website_recursive fetchC2 netlocD settingsNoSdo "s" (some 5) (some 1)
    (some []) (some [])).getD defaultOutcome

/-!  ## Helper lemmas  -/

theorem crawl_url_fallback_url (f : String → Fetch) (u : String) :
    (crawl_url_fallback f u).url = u := by
  unfold crawl_url_fallback
  cases f u with
  | exc m => rfl
  | resp s p => by_cases h : s = 200 <;> simp [h]

theorem runTasks_length (f : String → Fetch) (v e : List String) :
    (runTasks f v e).1.length = e.length := by
  induction e generalizing v with
  | nil => rfl
  | cons u rest ih => by_cases h : u ∈ v <;> simp [runTasks, h, ih]

theorem runTasks_state_indep (f g : String → Fetch) (v e : List String) :
    (runTasks f v e).2 = (runTasks g v e).2 := by
  induction e generalizing v with
  | nil => rfl
  | cons u rest ih => by_cases h : u ∈ v <;> simp [runTasks, h, ih]

theorem runTasks_visited_mem (f : String → Fetch) (v e : List String)
    (u : String) : u ∈ (runTasks f v e).2.2 ↔ u ∈ v ∨ u ∈ e := by
  induction e generalizing v with
  | nil => simp [runTasks]
  | cons a rest ih =>
      by_cases h : a ∈ v
      · rw [show (runTasks f v (a :: rest)).2.2 = (runTasks f v rest).2.2 by
          simp [runTasks, h]]
        rw [ih]
        simp only [List.mem_cons]
        constructor
        · tauto
        · rintro (h1 | rfl | h1)
          · exact Or.inl h1
          · exact Or.inl h
          · exact Or.inr h1
      · rw [show (runTasks f v (a :: rest)).2.2 = (runTasks f (a :: v) rest).2.2
          by simp [runTasks, h]]
        rw [ih]
        simp only [List.mem_cons]
        tauto

theorem runTasks_fetched (f : String → Fetch) (v e : List String) :
    (runTasks f v e).2.1.Nodup ∧
      ∀ u ∈ (runTasks f v e).2.1, u ∈ e ∧ u ∉ v := by
  induction e generalizing v with
  | nil => simp [runTasks]
  | cons a rest ih =>
      by_cases h : a ∈ v
      · rw [show (runTasks f v (a :: rest)).2.1 = (runTasks f v rest).2.1 by
          simp [runTasks, h]]
        refine ⟨(ih v).1, fun u hu => ?_⟩
        obtain ⟨h1, h2⟩ := (ih v).2 u hu
        exact ⟨List.mem_cons_of_mem _ h1, h2⟩
      · rw [show (runTasks f v (a :: rest)).2.1
            = a :: (runTasks f (a :: v) rest).2.1 by simp [runTasks, h]]
        refine ⟨List.nodup_cons.mpr ⟨fun hmem => ?_, (ih (a :: v)).1⟩,
          fun u hu => ?_⟩
        · exact ((ih (a :: v)).2 a hmem).2 (List.mem_cons_self a v)
        · rcases List.mem_cons.mp hu with rfl | hu'
          · exact ⟨List.mem_cons_self _ _, h⟩
          · obtain ⟨h1, h2⟩ := (ih (a :: v)).2 u hu'
            exact ⟨List.mem_cons_of_mem _ h1,
              fun hv => h2 (List.mem_cons_of_mem _ hv)⟩

theorem mergeRound_crawled (netloc : String → Option String) (sdo : Bool)
    (su bd : String) (md : Nat) (incl excl : List String) (d : Nat)
    (visited : List String) (rs : List PageResult) :
    ∀ (crawled : List PageResult) (queue : List String),
      (mergeRound netloc sdo su bd md incl excl d visited rs crawled queue).1
        = crawled ++ rs.filter (fun r => r.success) := by
  induction rs with
  | nil => intro crawled queue; simp [mergeRound]
  | cons r rest ih =>
      intro crawled queue
      by_cases h : r.success
      · simp [mergeRound, h, ih]
      · simp [mergeRound, h, ih]

theorem enqueue_mem (netloc : String → Option String) (sdo : Bool)
    (su bd : String) (incl excl : List String) (visited : List String)
    (r : PageResult) :
    ∀ (queue : List String) (u : String),
      u ∈ enqueue_from_result netloc sdo su bd incl excl visited r queue →
        u ∈ queue ∨ u ∉ visited := by
  unfold enqueue_from_result
  generalize r.links = ls
  induction ls with
  | nil => intro queue u h; exact Or.inl h
  | cons l rest ih =>
      intro queue u h
      rw [List.foldl_cons] at h
      by_cases hc : l ≠ "" ∧ l ∉ visited ∧
          should_crawl_link netloc sdo visited l su incl excl (some bd) = true
      · rw [if_pos hc] at h
        rcases ih (queue ++ [l]) u h with h1 | h1
        · rcases List.mem_append.mp h1 with h2 | h2
          · exact Or.inl h2
          · rcases List.mem_singleton.mp h2 with rfl
            exact Or.inr hc.2.1
        · exact Or.inr h1
      · rw [if_neg hc] at h
        exact ih queue u h

theorem mergeRound_queue (netloc : String → Option String) (sdo : Bool)
    (su bd : String) (md : Nat) (incl excl : List String) (d : Nat)
    (visited : List String) (rs : List PageResult) :
    ∀ (crawled : List PageResult) (queue : List String) (u : String),
      u ∈ (mergeRound netloc sdo su bd md incl excl d visited rs crawled
        queue).2 → u ∈ queue ∨ u ∉ visited := by
  induction rs with
  | nil => intro crawled queue u h; exact Or.inl h
  | cons r rest ih =>
      intro crawled queue u h
      by_cases hs : r.success
      · rw [show mergeRound netloc sdo su bd md incl excl d visited
            (r :: rest) crawled queue
            = mergeRound netloc sdo su bd md incl excl d visited rest
                (crawled ++ [r])
                (if d < md - 1 then
                  enqueue_from_result netloc sdo su bd incl excl visited r
                    queue
                 else queue) by simp [mergeRound, hs]] at h
        rcases ih _ _ u h with h1 | h1
        · by_cases hd : d < md - 1
          · rw [if_pos hd] at h1
            exact enqueue_mem netloc sdo su bd incl excl visited r queue u h1
          · rw [if_neg hd] at h1
            exact Or.inl h1
        · exact Or.inr h1
      · rw [show mergeRound netloc sdo su bd md incl excl d visited
            (r :: rest) crawled queue
            = mergeRound netloc sdo su bd md incl excl d visited rest crawled
                queue by simp [mergeRound, hs]] at h
        exact ih _ _ u h


section CrawlLoopLemmas

variable (f : String → Fetch) (netloc : String → Option String) (sdo : Bool)
variable (su bd : String) (mp md : Nat) (incl excl : List String)

theorem crawl_loop_zero (v q : List String) (c : List PageResult) (d : Nat) :
    crawl_loop f netloc sdo su bd mp md incl excl 0 v q c d
      = { crawled := c, visited := v, queue := q, trace := [],
          batches := [] } := rfl

theorem crawl_loop_exit (fuel : Nat) (v q : List String)
    (c : List PageResult) (d : Nat) (hg : q = [] ∨ ¬ c.length < mp) :
    crawl_loop f netloc sdo su bd mp md incl excl (fuel + 1) v q c d
      = { crawled := c, visited := v, queue := q, trace := [],
          batches := [] } := by
  conv_lhs => rw [crawl_loop]
  exact if_pos hg

theorem crawl_loop_step (fuel : Nat) (v q : List String)
    (c : List PageResult) (d : Nat) (hg : ¬ (q = [] ∨ ¬ c.length < mp)) :
    crawl_loop f netloc sdo su bd mp md incl excl (fuel + 1) v q c d
      = (let t := runTasks f v q
         let m := mergeRound netloc sdo su bd md incl excl d t.2.2 t.1 c []
         let rest := crawl_loop f netloc sdo su bd mp md incl excl fuel
           t.2.2 m.2 m.1 (d + 1)
         { crawled := rest.crawled, visited := rest.visited,
           queue := rest.queue,
           trace := t.2.1.map (fun u => (d, u)) ++ rest.trace,
           batches := q :: rest.batches }) := by
  conv_lhs => rw [crawl_loop]
  exact if_neg hg

theorem crawl_loop_succ_crawled (fuel : Nat) (v q : List String)
    (c : List PageResult) (d : Nat) (hg : ¬ (q = [] ∨ ¬ c.length < mp)) :
    (crawl_loop f netloc sdo su bd mp md incl excl (fuel + 1) v q c
      d).crawled
      = (crawl_loop f netloc sdo su bd mp md incl excl fuel
          (runTasks f v q).2.2
          (mergeRound netloc sdo su bd md incl excl d (runTasks f v q).2.2
            (runTasks f v q).1 c []).2
          (mergeRound netloc sdo su bd md incl excl d (runTasks f v q).2.2
            (runTasks f v q).1 c []).1
          (d + 1)).crawled := by
  rw [crawl_loop_step f netloc sdo su bd mp md incl excl fuel v q c d hg]

theorem crawl_loop_succ_visited (fuel : Nat) (v q : List String)
    (c : List PageResult) (d : Nat) (hg : ¬ (q = [] ∨ ¬ c.length < mp)) :
    (crawl_loop f netloc sdo su bd mp md incl excl (fuel + 1) v q c
      d).visited
      = (crawl_loop f netloc sdo su bd mp md incl excl fuel
          (runTasks f v q).2.2
          (mergeRound netloc sdo su bd md incl excl d (runTasks f v q).2.2
            (runTasks f v q).1 c []).2
          (mergeRound netloc sdo su bd md incl excl d (runTasks f v q).2.2
            (runTasks f v q).1 c []).1
          (d + 1)).visited := by
  rw [crawl_loop_step f netloc sdo su bd mp md incl excl fuel v q c d hg]

theorem crawl_loop_succ_queue (fuel : Nat) (v q : List String)
    (c : List PageResult) (d : Nat) (hg : ¬ (q = [] ∨ ¬ c.length < mp)) :
    (crawl_loop f netloc sdo su bd mp md incl excl (fuel + 1) v q c d).queue
      = (crawl_loop f netloc sdo su bd mp md incl excl fuel
          (runTasks f v q).2.2
          (mergeRound netloc sdo su bd md incl excl d (runTasks f v q).2.2
            (runTasks f v q).1 c []).2
          (mergeRound netloc sdo su bd md incl excl d (runTasks f v q).2.2
            (runTasks f v q).1 c []).1
          (d + 1)).queue := by
  rw [crawl_loop_step f netloc sdo su bd mp md incl excl fuel v q c d hg]

theorem crawl_loop_succ_trace (fuel : Nat) (v q : List String)
    (c : List PageResult) (d : Nat) (hg : ¬ (q = [] ∨ ¬ c.length < mp)) :
    (crawl_loop f netloc sdo su bd mp md incl excl (fuel + 1) v q c d).trace
      = (runTasks f v q).2.1.map (fun u => (d, u)) ++
        (crawl_loop f netloc sdo su bd mp md incl excl fuel
          (runTasks f v q).2.2
          (mergeRound netloc sdo su bd md incl excl d (runTasks f v q).2.2
            (runTasks f v q).1 c []).2
          (mergeRound netloc sdo su bd md incl excl d (runTasks f v q).2.2
            (runTasks f v q).1 c []).1
          (d + 1)).trace := by
  rw [crawl_loop_step f netloc sdo su bd mp md incl excl fuel v q c d hg]

theorem crawl_loop_succ_batches (fuel : Nat) (v q : List String)
    (c : List PageResult) (d : Nat) (hg : ¬ (q = [] ∨ ¬ c.length < mp)) :
    (crawl_loop f netloc sdo su bd mp md incl excl (fuel + 1) v q c
      d).batches
      = q :: (crawl_loop f netloc sdo su bd mp md incl excl fuel
          (runTasks f v q).2.2
          (mergeRound netloc sdo su bd md incl excl d (runTasks f v q).2.2
            (runTasks f v q).1 c []).2
          (mergeRound netloc sdo su bd md incl excl d (runTasks f v q).2.2
            (runTasks f v q).1 c []).1
          (d + 1)).batches := by
  rw [crawl_loop_step f netloc sdo su bd mp md incl excl fuel v q c d hg]

theorem crawl_loop_trace_depth :
    ∀ (fuel : Nat) (v q : List String) (c : List PageResult) (d : Nat),
      ∀ e ∈ (crawl_loop f netloc sdo su bd mp md incl excl fuel v q c
        d).trace, d ≤ e.1 ∧ e.1 < d + fuel := by
  intro fuel
  induction fuel with
  | zero =>
      intro v q c d e he
      rw [crawl_loop_zero] at he
      simp at he
  | succ fuel ih =>
      intro v q c d e he
      by_cases hg : q = [] ∨ ¬ c.length < mp
      · rw [crawl_loop_exit f netloc sdo su bd mp md incl excl fuel v q c d
          hg] at he
        simp at he
      · rw [crawl_loop_succ_trace f netloc sdo su bd mp md incl excl fuel v
          q c d hg] at he
        rcases List.mem_append.mp he with he | he
        · rcases List.mem_map.mp he with ⟨u, _, rfl⟩
          exact ⟨le_refl _, by omega⟩
        · obtain ⟨h1, h2⟩ := ih _ _ _ _ e he
          exact ⟨by omega, by omega⟩

theorem crawl_loop_visited_mono :
    ∀ (fuel : Nat) (v q : List String) (c : List PageResult) (d : Nat)
      (u : String), u ∈ v →
      u ∈ (crawl_loop f netloc sdo su bd mp md incl excl fuel v q c
        d).visited := by
  intro fuel
  induction fuel with
  | zero =>
      intro v q c d u hu
      rw [crawl_loop_zero]
      exact hu
  | succ fuel ih =>
      intro v q c d u hu
      by_cases hg : q = [] ∨ ¬ c.length < mp
      · rw [crawl_loop_exit f netloc sdo su bd mp md incl excl fuel v q c d
          hg]
        exact hu
      · rw [crawl_loop_succ_visited f netloc sdo su bd mp md incl excl fuel
          v q c d hg]
        exact ih _ _ _ _ u ((runTasks_visited_mem f v q u).mpr (Or.inl hu))

theorem crawl_loop_trace_inv :
    ∀ (fuel : Nat) (v q : List String) (c : List PageResult) (d : Nat),
      (((crawl_loop f netloc sdo su bd mp md incl excl fuel v q c
          d).trace.map Prod.snd).Nodup) ∧
      ∀ u ∈ (crawl_loop f netloc sdo su bd mp md incl excl fuel v q c
          d).trace.map Prod.snd,
        u ∉ v ∧
          u ∈ (crawl_loop f netloc sdo su bd mp md incl excl fuel v q c
            d).visited := by
  intro fuel
  induction fuel with
  | zero =>
      intro v q c d
      rw [crawl_loop_zero]
      simp
  | succ fuel ih =>
      intro v q c d
      by_cases hg : q = [] ∨ ¬ c.length < mp
      · rw [crawl_loop_exit f netloc sdo su bd mp md incl excl fuel v q c d
          hg]
        simp
      · rw [crawl_loop_succ_trace f netloc sdo su bd mp md incl excl fuel v
          q c d hg,
          crawl_loop_succ_visited f netloc sdo su bd mp md incl excl fuel v
          q c d hg]
        have hmap : ((runTasks f v q).2.1.map (fun u => (d, u))).map
            Prod.snd = (runTasks f v q).2.1 := by
          rw [List.map_map]
          exact List.map_id _
        have hfet := runTasks_fetched f v q
        obtain ⟨ihnodup, ihmem⟩ := ih (runTasks f v q).2.2
          (mergeRound netloc sdo su bd md incl excl d (runTasks f v q).2.2
            (runTasks f v q).1 c []).2
          (mergeRound netloc sdo su bd md incl excl d (runTasks f v q).2.2
            (runTasks f v q).1 c []).1
          (d + 1)
        rw [List.map_append, hmap]
        constructor
        · refine List.nodup_append.mpr ⟨hfet.1, ihnodup, ?_⟩
          intro a ha hb
          have hav : a ∈ (runTasks f v q).2.2 :=
            (runTasks_visited_mem f v q a).mpr (Or.inr (hfet.2 a ha).1)
          exact (ihmem a hb).1 hav
        · intro u hu
          rcases List.mem_append.mp hu with hu | hu
          · refine ⟨(hfet.2 u hu).2, ?_⟩
            have hav : u ∈ (runTasks f v q).2.2 :=
              (runTasks_visited_mem f v q u).mpr (Or.inr (hfet.2 u hu).1)
            exact crawl_loop_visited_mono f netloc sdo su bd mp md incl excl
              fuel _ _ _ _ u hav
          · refine ⟨?_, (ihmem u hu).2⟩
            intro huv
            exact (ihmem u hu).1
              ((runTasks_visited_mem f v q u).mpr (Or.inl huv))

theorem crawl_loop_queue_disjoint :
    ∀ (fuel : Nat) (v q : List String) (c : List PageResult) (d : Nat),
      (∀ u ∈ q, u ∉ v) →
      ∀ u ∈ (crawl_loop f netloc sdo su bd mp md incl excl fuel v q c
          d).queue,
        u ∉ (crawl_loop f netloc sdo su bd mp md incl excl fuel v q c
          d).visited := by
  intro fuel
  induction fuel with
  | zero =>
      intro v q c d hq u hu
      rw [crawl_loop_zero] at hu ⊢
      exact hq u hu
  | succ fuel ih =>
      intro v q c d hq u hu
      by_cases hg : q = [] ∨ ¬ c.length < mp
      · rw [crawl_loop_exit f netloc sdo su bd mp md incl excl fuel v q c d
          hg] at hu ⊢
        exact hq u hu
      · rw [crawl_loop_succ_queue f netloc sdo su bd mp md incl excl fuel v
          q c d hg] at hu
        rw [crawl_loop_succ_visited f netloc sdo su bd mp md incl excl fuel
          v q c d hg]
        refine ih _ _ _ _ ?_ u hu
        intro w hw
        rcases mergeRound_queue netloc sdo su bd md incl excl d _ _ _ _ w hw
          with h1 | h1
        · simp at h1
        · exact h1

theorem crawl_loop_crawled_success :
    ∀ (fuel : Nat) (v q : List String) (c : List PageResult) (d : Nat),
      (∀ r ∈ c, r.success = true) →
      ∀ r ∈ (crawl_loop f netloc sdo su bd mp md incl excl fuel v q c
          d).crawled, r.success = true := by
  intro fuel
  induction fuel with
  | zero =>
      intro v q c d hc r hr
      rw [crawl_loop_zero] at hr
      exact hc r hr
  | succ fuel ih =>
      intro v q c d hc r hr
      by_cases hg : q = [] ∨ ¬ c.length < mp
      · rw [crawl_loop_exit f netloc sdo su bd mp md incl excl fuel v q c d
          hg] at hr
        exact hc r hr
      · rw [crawl_loop_succ_crawled f netloc sdo su bd mp md incl excl fuel
          v q c d hg] at hr
        refine ih _ _ _ _ ?_ r hr
        intro w hw
        rw [mergeRound_crawled] at hw
        rcases List.mem_append.mp hw with h1 | h1
        · exact hc w h1
        · exact (List.mem_filter.mp h1).2

theorem crawl_loop_batches_ne :
    ∀ (fuel : Nat) (v q : List String) (c : List PageResult) (d : Nat),
      (crawl_loop f netloc sdo su bd mp md incl excl fuel v q c
        d).batches ≠ [] → c.length < mp := by
  intro fuel v q c d h
  cases fuel with
  | zero =>
      rw [crawl_loop_zero] at h
      simp at h
  | succ fuel =>
      by_cases hg : q = [] ∨ ¬ c.length < mp
      · rw [crawl_loop_exit f netloc sdo su bd mp md incl excl fuel v q c d
          hg] at h
        simp at h
      · push_neg at hg
        exact hg.2

theorem crawl_loop_batches_nil :
    ∀ (fuel : Nat) (v q : List String) (c : List PageResult) (d : Nat),
      (crawl_loop f netloc sdo su bd mp md incl excl fuel v q c
        d).batches = [] →
      (crawl_loop f netloc sdo su bd mp md incl excl fuel v q c
        d).crawled = c := by
  intro fuel v q c d h
  cases fuel with
  | zero => rw [crawl_loop_zero]
  | succ fuel =>
      by_cases hg : q = [] ∨ ¬ c.length < mp
      · rw [crawl_loop_exit f netloc sdo su bd mp md incl excl fuel v q c d
          hg]
      · rw [crawl_loop_succ_batches f netloc sdo su bd mp md incl excl fuel
          v q c d hg] at h
        simp at h

theorem crawl_loop_crawled_bound :
    ∀ (fuel : Nat) (v q : List String) (c : List PageResult) (d : Nat),
      (crawl_loop f netloc sdo su bd mp md incl excl fuel v q c
        d).crawled.length
        ≤ max c.length ((mp - 1) + lastLen
            (crawl_loop f netloc sdo su bd mp md incl excl fuel v q c
              d).batches) := by
  intro fuel
  induction fuel with
  | zero =>
      intro v q c d
      rw [crawl_loop_zero]
      exact le_max_left _ _
  | succ fuel ih =>
      intro v q c d
      by_cases hg : q = [] ∨ ¬ c.length < mp
      · rw [crawl_loop_exit f netloc sdo su bd mp md incl excl fuel v q c d
          hg]
        exact le_max_left _ _
      · rw [crawl_loop_succ_crawled f netloc sdo su bd mp md incl excl fuel
          v q c d hg,
          crawl_loop_succ_batches f netloc sdo su bd mp md incl excl fuel v
          q c d hg]
        have hcmp : c.length < mp := by
          push_neg at hg; exact hg.2
        have hm1 : (mergeRound netloc sdo su bd md incl excl d
            (runTasks f v q).2.2 (runTasks f v q).1 c []).1.length
            ≤ c.length + q.length := by
          rw [mergeRound_crawled]
          have h1 : ((runTasks f v q).1.filter
              (fun r => r.success)).length ≤ (runTasks f v q).1.length :=
            List.length_filter_le _ _
          have h2 : (runTasks f v q).1.length = q.length :=
            runTasks_length f v q
          rw [List.length_append]
          omega
        cases hb : (crawl_loop f netloc sdo su bd mp md incl excl fuel
            (runTasks f v q).2.2
            (mergeRound netloc sdo su bd md incl excl d (runTasks f v q).2.2
              (runTasks f v q).1 c []).2
            (mergeRound netloc sdo su bd md incl excl d (runTasks f v q).2.2
              (runTasks f v q).1 c []).1
            (d + 1)).batches with
        | nil =>
            have hcr := crawl_loop_batches_nil f netloc sdo su bd mp md incl
              excl fuel (runTasks f v q).2.2
              (mergeRound netloc sdo su bd md incl excl d
                (runTasks f v q).2.2 (runTasks f v q).1 c []).2
              (mergeRound netloc sdo su bd md incl excl d
                (runTasks f v q).2.2 (runTasks f v q).1 c []).1
              (d + 1) hb
            rw [hcr]
            have hll : lastLen [q] = q.length := rfl
            rw [hll]
            exact le_max_of_le_right (by omega)
        | cons b bs =>
            have hne : (crawl_loop f netloc sdo su bd mp md incl excl fuel
                (runTasks f v q).2.2
                (mergeRound netloc sdo su bd md incl excl d
                  (runTasks f v q).2.2 (runTasks f v q).1 c []).2
                (mergeRound netloc sdo su bd md incl excl d
                  (runTasks f v q).2.2 (runTasks f v q).1 c []).1
                (d + 1)).batches ≠ [] := by
              rw [hb]; simp
            have hmlt := crawl_loop_batches_ne f netloc sdo su bd mp md incl
              excl fuel (runTasks f v q).2.2
              (mergeRound netloc sdo su bd md incl excl d
                (runTasks f v q).2.2 (runTasks f v q).1 c []).2
              (mergeRound netloc sdo su bd md incl excl d
                (runTasks f v q).2.2 (runTasks f v q).1 c []).1
              (d + 1) hne
            have hih := ih (runTasks f v q).2.2
              (mergeRound netloc sdo su bd md incl excl d
                (runTasks f v q).2.2 (runTasks f v q).1 c []).2
              (mergeRound netloc sdo su bd md incl excl d
                (runTasks f v q).2.2 (runTasks f v q).1 c []).1
              (d + 1)
            have hlast : lastLen (q :: b :: bs) = lastLen (b :: bs) := rfl
            rw [hb] at hih
            rw [hlast]
            exact le_max_of_le_right
              (le_trans hih (max_le (by omega) (le_refl _)))

theorem crawl_loop_trace_batch :
    ∀ (fuel : Nat) (v q : List String) (c : List PageResult) (d : Nat),
      ∀ e ∈ (crawl_loop f netloc sdo su bd mp md incl excl fuel v q c
          d).trace,
        e.1 - d < (crawl_loop f netloc sdo su bd mp md incl excl fuel v q c
          d).batches.length ∧
        e.2 ∈ (crawl_loop f netloc sdo su bd mp md incl excl fuel v q c
          d).batches.getD (e.1 - d) [] := by
  intro fuel
  induction fuel with
  | zero =>
      intro v q c d e he
      rw [crawl_loop_zero] at he
      simp at he
  | succ fuel ih =>
      intro v q c d e he
      by_cases hg : q = [] ∨ ¬ c.length < mp
      · rw [crawl_loop_exit f netloc sdo su bd mp md incl excl fuel v q c d
          hg] at he
        simp at he
      · rw [crawl_loop_succ_trace f netloc sdo su bd mp md incl excl fuel v
          q c d hg] at he
        rw [crawl_loop_succ_batches f netloc sdo su bd mp md incl excl fuel
          v q c d hg]
        rcases List.mem_append.mp he with he | he
        · rcases List.mem_map.mp he with ⟨u, hu, rfl⟩
          have h0 : (d, u).1 - d = 0 := by omega
          rw [h0]
          simp only [List.getD_cons_zero, List.length_cons]
          exact ⟨Nat.succ_pos _, ((runTasks_fetched f v q).2 u hu).1⟩
        · obtain ⟨h1, h2⟩ := ih _ _ _ _ e he
          have hd : d + 1 ≤ e.1 :=
            (crawl_loop_trace_depth f netloc sdo su bd mp md incl excl fuel
              _ _ _ _ e he).1
          have heq : e.1 - d = (e.1 - (d + 1)) + 1 := by omega
          rw [heq]
          simp only [List.getD_cons_succ, List.length_cons]
          exact ⟨by omega, h2⟩

theorem listPairwiseConst (l : List String) (d : Nat) :
    List.Pairwise (· ≤ ·) (l.map (fun _ => d)) := by
  induction l with
  | nil => simp
  | cons a rest ih =>
      simp only [List.map_cons, List.pairwise_cons]
      refine ⟨fun b hb => ?_, ih⟩
      rcases List.mem_map.mp hb with ⟨x, _, rfl⟩
      exact le_refl d

theorem crawl_loop_trace_sorted :
    ∀ (fuel : Nat) (v q : List String) (c : List PageResult) (d : Nat),
      List.Pairwise (· ≤ ·)
        ((crawl_loop f netloc sdo su bd mp md incl excl fuel v q c
          d).trace.map Prod.fst) := by
  intro fuel
  induction fuel with
  | zero =>
      intro v q c d
      rw [crawl_loop_zero]
      simp
  | succ fuel ih =>
      intro v q c d
      by_cases hg : q = [] ∨ ¬ c.length < mp
      · rw [crawl_loop_exit f netloc sdo su bd mp md incl excl fuel v q c d
          hg]
        simp
      · rw [crawl_loop_succ_trace f netloc sdo su bd mp md incl excl fuel v
          q c d hg]
        rw [List.map_append]
        refine List.pairwise_append.mpr ⟨?_, ih _ _ _ _, ?_⟩
        · rw [List.map_map]
          have hcomp : (Prod.fst ∘ fun u : String => (d, u))
              = fun (_ : String) => d := rfl
          rw [hcomp]
          exact listPairwiseConst _ d
        · intro a ha b hb
          rcases List.mem_map.mp ha with ⟨x, hx, rfl⟩
          rcases List.mem_map.mp hb with ⟨e, he, rfl⟩
          rcases List.mem_map.mp hx with ⟨u, hu, rfl⟩
          have := (crawl_loop_trace_depth f netloc sdo su bd mp md incl excl
            fuel _ _ _ _ e he).1
          simp only []
          omega

end CrawlLoopLemmas

theorem crawl_url_fallback_fail (f : String → Fetch) (u : String)
    (h : fetchFails f u) :
    (crawl_url_fallback f u).success = false ∧
      (crawl_url_fallback f u).error ≠ none := by
  unfold crawl_url_fallback
  cases hf : f u with
  | exc m => simp
  | resp s p =>
      by_cases hs : s = 200
      · subst hs
        exact absurd hf (h p)
      · simp [hs]

theorem crawl_url_fallback_ok (f : String → Fetch) (u : String)
    (p : PageData) (h : f u = Fetch.resp 200 p) :
    crawl_url_fallback f u
      = { url := u, success := true, error := none, content := p.text,
          links := p.links, method := "fallback" } := by
  unfold crawl_url_fallback
  rw [h]
  simp

theorem runTasks_result_fail (f : String → Fetch) :
    ∀ (e v : List String) (u : String), fetchFails f u →
      ∀ r ∈ (runTasks f v e).1, r.url = u →
        r.success = false ∧ r.error ≠ none := by
  intro e
  induction e with
  | nil =>
      intro v u hu r hr
      simp [runTasks] at hr
  | cons a rest ih =>
      intro v u hu r hr hru
      by_cases h : a ∈ v
      · rw [show (runTasks f v (a :: rest)).1
            = skipResult a :: (runTasks f v rest).1 by simp [runTasks, h]]
          at hr
        rcases List.mem_cons.mp hr with rfl | hr'
        · exact ⟨rfl, by simp [skipResult]⟩
        · exact ih v u hu r hr' hru
      · rw [show (runTasks f v (a :: rest)).1
            = crawl_url_fallback f a :: (runTasks f (a :: v) rest).1 by
            simp [runTasks, h]] at hr
        rcases List.mem_cons.mp hr with rfl | hr'
        · have hau : a = u := by
            rw [← hru, crawl_url_fallback_url]
          subst hau
          exact crawl_url_fallback_fail f a hu
        · exact ih (a :: v) u hu r hr' hru

theorem runTasks_result_ok (f : String → Fetch) :
    ∀ (e v : List String) (u : String), u ∈ e → u ∉ v → fetchOk f u →
      ∃ r ∈ (runTasks f v e).1,
        r.url = u ∧ r.success = true ∧ r.error = none := by
  intro e
  induction e with
  | nil =>
      intro v u hu
      simp at hu
  | cons a rest ih =>
      intro v u hu hv hok
      by_cases h : a ∈ v
      · have hua : u ≠ a := fun heq => hv (heq ▸ h)
        have hur : u ∈ rest := by
          rcases List.mem_cons.mp hu with heq | hur
          · exact absurd heq hua
          · exact hur
        obtain ⟨r, hr, hprop⟩ := ih v u hur hv hok
        refine ⟨r, ?_, hprop⟩
        rw [show (runTasks f v (a :: rest)).1
            = skipResult a :: (runTasks f v rest).1 by simp [runTasks, h]]
        exact List.mem_cons_of_mem _ hr
      · by_cases hua : u = a
        · subst hua
          obtain ⟨p, hp⟩ := hok
          refine ⟨crawl_url_fallback f u, ?_, ?_⟩
          · rw [show (runTasks f v (u :: rest)).1
                = crawl_url_fallback f u :: (runTasks f (u :: v) rest).1 by
                simp [runTasks, h]]
            exact List.mem_cons_self _ _
          · rw [crawl_url_fallback_ok f u p hp]
            exact ⟨rfl, rfl, rfl⟩
        · have hur : u ∈ rest := by
            rcases List.mem_cons.mp hu with heq | hur
            · exact absurd heq hua
            · exact hur
          have hv' : u ∉ a :: v := by
            intro hmem
            rcases List.mem_cons.mp hmem with heq | hmem'
            · exact hua heq
            · exact hv hmem'
          obtain ⟨r, hr, hprop⟩ := ih (a :: v) u hur hv' hok
          refine ⟨r, ?_, hprop⟩
          rw [show (runTasks f v (a :: rest)).1
              = crawl_url_fallback f a :: (runTasks f (a :: v) rest).1 by
              simp [runTasks, h]]
          exact List.mem_cons_of_mem _ hr

theorem runTasks_congr (f g : String → Fetch) (w : String)
    (hfg : ∀ u, u ≠ w → f u = g u) :
    ∀ (e v : List String),
      List.Forall₂ (fun r s => r.url = s.url ∧ (r.url ≠ w → r = s))
        (runTasks f v e).1 (runTasks g v e).1 := by
  intro e
  induction e with
  | nil =>
      intro v
      simp [runTasks]
  | cons a rest ih =>
      intro v
      by_cases h : a ∈ v
      · rw [show (runTasks f v (a :: rest)).1
            = skipResult a :: (runTasks f v rest).1 by simp [runTasks, h],
          show (runTasks g v (a :: rest)).1
            = skipResult a :: (runTasks g v rest).1 by simp [runTasks, h]]
        exact List.Forall₂.cons ⟨rfl, fun _ => rfl⟩ (ih v)
      · rw [show (runTasks f v (a :: rest)).1
            = crawl_url_fallback f a :: (runTasks f (a :: v) rest).1 by
            simp [runTasks, h],
          show (runTasks g v (a :: rest)).1
            = crawl_url_fallback g a :: (runTasks g (a :: v) rest).1 by
            simp [runTasks, h]]
        refine List.Forall₂.cons ⟨?_, ?_⟩ (ih (a :: v))
        · rw [crawl_url_fallback_url, crawl_url_fallback_url]
        · intro hne
          rw [crawl_url_fallback_url] at hne
          unfold crawl_url_fallback
          rw [hfg a hne]

/-- Claim C1 (failure isolation).  For every round batch, run under any
execution order `exec` of its gathered tasks: (1) every task produces exactly
one result; (2) a task whose fetch fails (exception or non-200 status) yields
a `success = false` result carrying an error, and this holds for every result
bearing that URL; (3) a sibling URL whose fetch succeeds (and that was not
already visited) still yields a `success = true` result with no error;
(4) changing the fetch outcome of one URL `w` leaves every other URL's result
and the whole frontier state unchanged; (5) the merge loop skips failed
results and keeps processing, so the crawl accumulates exactly the successful
results and never aborts because of a failure. -/
theorem crawl_round_failure_isolation
    (f g : String → Fetch) (v exec : List String) (w : String)
    (netloc : String → Option String) (sdo : Bool) (su bdm : String)
    (md : Nat) (incl excl : List String) (d : Nat)
    (visited : List String) (rs crawled : List PageResult)
    (queue : List String) :
    (runTasks f v exec).1.length = exec.length ∧
    (∀ u, fetchFails f u →
      ∀ r ∈ (runTasks f v exec).1, r.url = u →
        r.success = false ∧ r.error ≠ none) ∧
    (∀ u, u ∈ exec → u ∉ v → fetchOk f u →
      ∃ r ∈ (runTasks f v exec).1,
        r.url = u ∧ r.success = true ∧ r.error = none) ∧
    ((∀ u, u ≠ w → f u = g u) →
      List.Forall₂ (fun r s => r.url = s.url ∧ (r.url ≠ w → r = s))
        (runTasks f v exec).1 (runTasks g v exec).1 ∧
      (runTasks f v exec).2 = (runTasks g v exec).2) ∧
    (mergeRound netloc sdo su bdm md incl excl d visited rs crawled
      queue).1 = crawled ++ rs.filter (fun r => r.success) := by
  refine ⟨runTasks_length f v exec,
    fun u hu r hr hru => runTasks_result_fail f exec v u hu r hr hru,
    fun u hue huv hok => runTasks_result_ok f exec v u hue huv hok,
    fun hfg => ⟨runTasks_congr f g w hfg exec v,
      runTasks_state_indep f g v exec⟩,
    mergeRound_crawled netloc sdo su bdm md incl excl d visited rs crawled
      queue⟩

/-- Witness for C1: in the batch `["good", "bad"]` against a server where
`"bad"` answers HTTP 500, the sibling `"good"` still yields a successful
result. -/
theorem crawl_round_failure_isolation_witness :
    ∃ r ∈ (runTasks fetchC1 [] ["good", "bad"]).1,
      r.url = "good" ∧ r.success = true ∧ r.error = none := by
  have h := crawl_round_failure_isolation fetchC1 fetchC1 []
    ["good", "bad"] "bad" netlocD false "s" "d" 3 [] [] 0 [] [] [] []
  exact h.2.2.1 "good" (by simp) (by simp)
    ⟨{ text := "ok", links := [] }, by decide⟩

theorem crawl_website_recursive_eq (f : String → Fetch)
    (netloc : String → Option String) (s : Settings) (start_url : String)
    (mp_arg md_arg : Option Nat) (incl_arg excl_arg : Option (List String))
    (bdm : String) (hbd : netloc start_url = some bdm) :
    crawl_website_recursive f netloc s start_url mp_arg md_arg incl_arg
      excl_arg
      = some (crawl_loop f netloc s.same_domain_only start_url bdm
          (pyOrNat mp_arg s.max_pages_per_domain)
          (pyOrNat md_arg s.max_crawl_depth)
          (incl_arg.getD []) (excl_arg.getD default_exclude_patterns)
          (pyOrNat md_arg s.max_crawl_depth) [] [start_url] [] 0) := by
  unfold crawl_website_recursive
  rw [hbd]
  rfl

theorem crawl_website_recursive_none (f : String → Fetch)
    (netloc : String → Option String) (s : Settings) (start_url : String)
    (mp_arg md_arg : Option Nat) (incl_arg excl_arg : Option (List String))
    (hbd : netloc start_url = none) :
    crawl_website_recursive f netloc s start_url mp_arg md_arg incl_arg
      excl_arg = none := by
  unfold crawl_website_recursive
  rw [hbd]
  rfl

/-- Counterexample to claim C2: crawling `fetchC2` with `maxPages = 2` and
`maxDepth = 2` returns 4 successful page results — the round that fetched the
three links discovered by the seed pushed the count past the cap, and the
returned list is not truncated. -/
theorem crawl_success_cap_counterexample :
    (crawl_website_recursive fetchC2 netlocD settingsNoSdo "s" (some 2)
      (some 2) (some []) (some [])).map
        (fun o => (o.crawled.filter (fun r => r.success)).length)
      = some 4 ∧ ¬ (4 ≤ 2) := by
  constructor
  · rfl
  · decide

/-- Claim C2 amended: every element of the returned list is a successful
result and the success count is strictly below `maxPages` at the start of
every round, but the final round may overshoot: the returned list is capped
only by `maxPages - 1` plus the size of the last executed round's batch, and
is never truncated to `maxPages`. -/
theorem crawl_success_cap_amended (f : String → Fetch)
    (netloc : String → Option String) (s : Settings) (start_url : String)
    (mp_arg md_arg : Option Nat) (incl_arg excl_arg : Option (List String))
    (o : CrawlOutcome)
    (h : crawl_website_recursive f netloc s start_url mp_arg md_arg incl_arg
      excl_arg = some o) :
    (∀ r ∈ o.crawled, r.success = true) ∧
    o.crawled.length
      ≤ (pyOrNat mp_arg s.max_pages_per_domain - 1) + lastLen o.batches := by
  cases hbd : netloc start_url with
  | none =>
      rw [crawl_website_recursive_none f netloc s start_url mp_arg md_arg
        incl_arg excl_arg hbd] at h
      exact absurd h (by simp)
  | some bdm =>
      rw [crawl_website_recursive_eq f netloc s start_url mp_arg md_arg
        incl_arg excl_arg bdm hbd] at h
      have ho := Option.some.inj h
      subst ho
      constructor
      · exact crawl_loop_crawled_success f netloc s.same_domain_only
          start_url bdm (pyOrNat mp_arg s.max_pages_per_domain)
          (pyOrNat md_arg s.max_crawl_depth) (incl_arg.getD [])
          (excl_arg.getD default_exclude_patterns)
          (pyOrNat md_arg s.max_crawl_depth) [] [start_url] [] 0
          (by simp)
      · have hb := crawl_loop_crawled_bound f netloc s.same_domain_only
          start_url bdm (pyOrNat mp_arg s.max_pages_per_domain)
          (pyOrNat md_arg s.max_crawl_depth) (incl_arg.getD [])
          (excl_arg.getD default_exclude_patterns)
          (pyOrNat md_arg s.max_crawl_depth) [] [start_url] [] 0
        simpa using hb

/-- Witness for the amended C2 on the counterexample crawl: 4 results against
a cap of 2, within `maxPages - 1` plus the final batch size of 3. -/
theorem crawl_success_cap_amended_witness :
    c2_out.crawled.length
      ≤ (pyOrNat (some 2) settingsNoSdo.max_pages_per_domain - 1)
        + lastLen c2_out.batches :=
  (crawl_success_cap_amended fetchC2 netlocD settingsNoSdo "s" (some 2)
    (some 2) (some []) (some []) c2_out (by rfl)).2

/-- Counterexample to claim C3: in the crawl of `fetchC3`, the pages `"a"`
and `"b"` of the same round both discover `"u"`, and both enqueue it — the
final queue is `["u", "u"]` while `"u"` is not in the visited set, so a
queued URL is not in visited and a same-round double discovery is enqueued
twice. -/
theorem visited_at_enqueue_counterexample :
    c3_out.queue = ["u", "u"] ∧ "u" ∈ c3_out.queue ∧
      "u" ∉ c3_out.visited := by
  refine ⟨rfl, by decide, by decide⟩

/-- Claim C3 amended: a URL enters the visited set when its fetch task is
dispatched (`crawl_single_url`), not when it is enqueued; consequently every
URL still on the queue at termination is *not* in the visited set, every
fetched URL *is*, and the same URL can be enqueued twice within one round
(deduplication happens at fetch dispatch instead). -/
theorem visited_at_fetch_amended (f : String → Fetch)
    (netloc : String → Option String) (s : Settings) (start_url : String)
    (mp_arg md_arg : Option Nat) (incl_arg excl_arg : Option (List String))
    (o : CrawlOutcome)
    (h : crawl_website_recursive f netloc s start_url mp_arg md_arg incl_arg
      excl_arg = some o) :
    (∀ u ∈ o.queue, u ∉ o.visited) ∧ ∀ e ∈ o.trace, e.2 ∈ o.visited := by
  cases hbd : netloc start_url with
  | none =>
      rw [crawl_website_recursive_none f netloc s start_url mp_arg md_arg
        incl_arg excl_arg hbd] at h
      exact absurd h (by simp)
  | some bdm =>
      rw [crawl_website_recursive_eq f netloc s start_url mp_arg md_arg
        incl_arg excl_arg bdm hbd] at h
      have ho := Option.some.inj h
      subst ho
      constructor
      · exact crawl_loop_queue_disjoint f netloc s.same_domain_only
          start_url bdm (pyOrNat mp_arg s.max_pages_per_domain)
          (pyOrNat md_arg s.max_crawl_depth) (incl_arg.getD [])
          (excl_arg.getD default_exclude_patterns)
          (pyOrNat md_arg s.max_crawl_depth) [] [start_url] [] 0
          (by simp)
      · intro e he
        exact ((crawl_loop_trace_inv f netloc s.same_domain_only
          start_url bdm (pyOrNat mp_arg s.max_pages_per_domain)
          (pyOrNat md_arg s.max_crawl_depth) (incl_arg.getD [])
          (excl_arg.getD default_exclude_patterns)
          (pyOrNat md_arg s.max_crawl_depth) [] [start_url] [] 0).2
          e.2 (List.mem_map_of_mem Prod.snd he)).2

/-- Witness for the amended C3: in the `fetchC3` crawl the twice-enqueued
`"u"` is indeed absent from the visited set. -/
theorem visited_at_fetch_amended_witness : "u" ∉ c3_out.visited :=
  (visited_at_fetch_amended fetchC3 netlocD settingsNoSdo "s" (some 3)
    (some 3) (some []) (some []) c3_out (by rfl)).1 "u" (by decide)

/-- Claim C4: in every execution of `crawl_website_recursive`, each distinct
URL is fetched at most once — the list of fetched URLs in the crawl's fetch
trace contains no duplicate, even when a URL was enqueued more than once
(the visited check at fetch dispatch skips later duplicates). -/
theorem no_duplicate_fetch (f : String → Fetch)
    (netloc : String → Option String) (s : Settings) (start_url : String)
    (mp_arg md_arg : Option Nat) (incl_arg excl_arg : Option (List String))
    (o : CrawlOutcome)
    (h : crawl_website_recursive f netloc s start_url mp_arg md_arg incl_arg
      excl_arg = some o) :
    (o.trace.map Prod.snd).Nodup := by
  cases hbd : netloc start_url with
  | none =>
      rw [crawl_website_recursive_none f netloc s start_url mp_arg md_arg
        incl_arg excl_arg hbd] at h
      exact absurd h (by simp)
  | some bdm =>
      rw [crawl_website_recursive_eq f netloc s start_url mp_arg md_arg
        incl_arg excl_arg bdm hbd] at h
      have ho := Option.some.inj h
      subst ho
      exact (crawl_loop_trace_inv f netloc s.same_domain_only start_url bdm
        (pyOrNat mp_arg s.max_pages_per_domain)
        (pyOrNat md_arg s.max_crawl_depth) (incl_arg.getD [])
        (excl_arg.getD default_exclude_patterns)
        (pyOrNat md_arg s.max_crawl_depth) [] [start_url] [] 0).1

/-- Witness for C4: in the `c4_out` crawl, whose round-2 batch is the
duplicate `["u", "u"]`, the fetched URLs are still pairwise distinct. -/
theorem no_duplicate_fetch_witness : (c4_out.trace.map Prod.snd).Nodup :=
  no_duplicate_fetch fetchC3 netlocD settingsNoSdo "s" (some 5) (some 3)
    (some []) (some []) c4_out (by rfl)

/-- Claim C5 (breadth-first rounds): along the fetch trace of any crawl the
depths are nondecreasing — every fetch at depth `d` completes before any
fetch at depth `d + 1` is dispatched — and every fetch at depth `k` is of a
URL belonging to the batch of round `k`, the queue discovered by the
previous round. -/
theorem breadth_first_rounds (f : String → Fetch)
    (netloc : String → Option String) (s : Settings) (start_url : String)
    (mp_arg md_arg : Option Nat) (incl_arg excl_arg : Option (List String))
    (o : CrawlOutcome)
    (h : crawl_website_recursive f netloc s start_url mp_arg md_arg incl_arg
      excl_arg = some o) :
    List.Pairwise (· ≤ ·) (o.trace.map Prod.fst) ∧
    ∀ e ∈ o.trace,
      e.1 < o.batches.length ∧ e.2 ∈ o.batches.getD e.1 [] := by
  cases hbd : netloc start_url with
  | none =>
      rw [crawl_website_recursive_none f netloc s start_url mp_arg md_arg
        incl_arg excl_arg hbd] at h
      exact absurd h (by simp)
  | some bdm =>
      rw [crawl_website_recursive_eq f netloc s start_url mp_arg md_arg
        incl_arg excl_arg bdm hbd] at h
      have ho := Option.some.inj h
      subst ho
      constructor
      · exact crawl_loop_trace_sorted f netloc s.same_domain_only start_url
          bdm (pyOrNat mp_arg s.max_pages_per_domain)
          (pyOrNat md_arg s.max_crawl_depth) (incl_arg.getD [])
          (excl_arg.getD default_exclude_patterns)
          (pyOrNat md_arg s.max_crawl_depth) [] [start_url] [] 0
      · intro e he
        have hb := crawl_loop_trace_batch f netloc s.same_domain_only
          start_url bdm (pyOrNat mp_arg s.max_pages_per_domain)
          (pyOrNat md_arg s.max_crawl_depth) (incl_arg.getD [])
          (excl_arg.getD default_exclude_patterns)
          (pyOrNat md_arg s.max_crawl_depth) [] [start_url] [] 0 e he
        simpa using hb

/-- Witness for C5 on the `c4_out` crawl: the trace depths are
nondecreasing. -/
theorem breadth_first_rounds_witness :
    List.Pairwise (· ≤ ·) (c4_out.trace.map Prod.fst) :=
  (breadth_first_rounds fetchC3 netlocD settingsNoSdo "s" (some 5) (some 3)
    (some []) (some []) c4_out (by rfl)).1

/-- Claim C10 (depth budget): links are enqueued only while
`current_depth < max_depth - 1`, so every fetch in a crawl happens at depth
at most `max_depth - 1` from the seed; and with a resolved `max_depth` of 1
(and a positive page budget) the crawl fetches exactly the seed URL once at
depth 0 and never enqueues any discovered link. -/
theorem depth_budget_edge (f : String → Fetch)
    (netloc : String → Option String) (s : Settings) (start_url : String)
    (mp_arg md_arg : Option Nat) (incl_arg excl_arg : Option (List String))
    (o : CrawlOutcome)
    (h : crawl_website_recursive f netloc s start_url mp_arg md_arg incl_arg
      excl_arg = some o) :
    (∀ e ∈ o.trace, e.1 + 1 ≤ pyOrNat md_arg s.max_crawl_depth) ∧
    (pyOrNat md_arg s.max_crawl_depth = 1 →
      1 ≤ pyOrNat mp_arg s.max_pages_per_domain →
      o.trace = [(0, start_url)] ∧ o.queue = []) := by
  cases hbd : netloc start_url with
  | none =>
      rw [crawl_website_recursive_none f netloc s start_url mp_arg md_arg
        incl_arg excl_arg hbd] at h
      exact absurd h (by simp)
  | some bdm =>
      rw [crawl_website_recursive_eq f netloc s start_url mp_arg md_arg
        incl_arg excl_arg bdm hbd] at h
      have ho := Option.some.inj h
      subst ho
      constructor
      · intro e he
        have hd := (crawl_loop_trace_depth f netloc s.same_domain_only
          start_url bdm (pyOrNat mp_arg s.max_pages_per_domain)
          (pyOrNat md_arg s.max_crawl_depth) (incl_arg.getD [])
          (excl_arg.getD default_exclude_patterns)
          (pyOrNat md_arg s.max_crawl_depth) [] [start_url] [] 0 e he).2
        omega
      · intro hmd hmp
        rw [hmd]
        rw [show (1 : Nat) = 0 + 1 from rfl]
        have hg : ¬(([start_url] : List String) = []
            ∨ ¬ ([] : List PageResult).length
                < pyOrNat mp_arg s.max_pages_per_domain) := by
          push_neg
          exact ⟨by simp, by simpa using hmp⟩
        constructor
        · rw [crawl_loop_succ_trace f netloc s.same_domain_only start_url
            bdm (pyOrNat mp_arg s.max_pages_per_domain) (0 + 1)
            (incl_arg.getD []) (excl_arg.getD default_exclude_patterns) 0
            [] [start_url] [] 0 hg]
          rw [crawl_loop_zero]
          simp [runTasks]
        · rw [crawl_loop_succ_queue f netloc s.same_domain_only start_url
            bdm (pyOrNat mp_arg s.max_pages_per_domain) (0 + 1)
            (incl_arg.getD []) (excl_arg.getD default_exclude_patterns) 0
            [] [start_url] [] 0 hg]
          rw [crawl_loop_zero]
          simp only [runTasks]
          by_cases hs : (crawl_url_fallback f start_url).success
          · simp [runTasks, mergeRound, hs]
          · simp [runTasks, mergeRound, hs]

/-- Witness for C10: the `max_depth = 1` crawl `c10_out` fetches only the
seed and ends with an empty queue. -/
theorem depth_budget_edge_witness :
    c10_out.trace = [(0, "s")] ∧ c10_out.queue = [] :=
  (depth_budget_edge fetchC2 netlocD settingsNoSdo "s" (some 5) (some 1)
    (some []) (some []) c10_out (by rfl)).2 (by decide) (by decide)

/-- Counterexample to claim C7: an HTTP 201 response — a 2xx success status —
is treated by `crawl_url_fallback` as a fetch error, not a success, because
the code tests `response.status != 200` rather than the 2xx range. -/
theorem http_2xx_counterexample :
    (crawl_url_fallback fetch201 "x").success = false ∧
    (crawl_url_fallback fetch201 "x").error = some "HTTP 201" ∧
    200 ≤ 201 ∧ 201 < 300 := by
  exact ⟨rfl, rfl, by decide, by decide⟩

/-- Claim C7 amended: only a response with status exactly 200 yields a
successful fetch result carrying the page content; any other status
(including other 2xx codes) yields a `success = false` result reporting
`"HTTP <status>"`; a raised exception is captured into the error field, so
no path raises. -/
theorem http_status_amended (f : String → Fetch) (url : String) :
    (∀ p, f url = Fetch.resp 200 p →
      crawl_url_fallback f url
        = { url := url, success := true, error := none, content := p.text,
            links := p.links, method := "fallback" }) ∧
    (∀ st p, f url = Fetch.resp st p → st ≠ 200 →
      crawl_url_fallback f url
        = { url := url, success := false,
            error := some ("HTTP " ++ toString st), content := "",
            links := [], method := "fallback" }) ∧
    (∀ msg, f url = Fetch.exc msg →
      crawl_url_fallback f url
        = { url := url, success := false, error := some msg, content := "",
            links := [], method := "fallback" }) := by
  refine ⟨fun p hp => crawl_url_fallback_ok f url p hp,
    fun st p hp hst => ?_, fun msg hm => ?_⟩
  · unfold crawl_url_fallback
    rw [hp]
    simp [hst]
  · unfold crawl_url_fallback
    rw [hm]

/-- Witness for the amended C7 at status 201. -/
theorem http_status_amended_witness :
    crawl_url_fallback fetch201 "y"
      = { url := "y", success := false, error := some "HTTP 201",
          content := "", links := [], method := "fallback" } :=
  (http_status_amended fetch201 "y").2.1 201
    { text := "created", links := [] } rfl (by decide)

theorem padRow_eq_aux :
    ∀ (k : Nat) (row : List String) (n : Nat), n - row.length = k →
      padRow row n = row ++ List.replicate k "" := by
  intro k
  induction k with
  | zero =>
      intro row n hk
      rw [padRow, if_neg (by omega)]
      simp
  | succ k ih =>
      intro row n hk
      rw [padRow, if_pos (by omega)]
      rw [ih (row ++ [""]) n (by simp; omega)]
      simp [List.replicate_succ, List.append_assoc]

theorem padRow_eq (row : List String) (n : Nat) :
    padRow row n = row ++ List.replicate (n - row.length) "" :=
  padRow_eq_aux (n - row.length) row n rfl

/-- Claim C9 (table markdown round-trip): for every table whose rows each
contain at least one cell, the emitted lines are the first row as a
pipe-delimited header, then exactly one separator row of `---` cells whose
width equals the header width, then one pipe-delimited row per remaining
data row in original order with short rows right-padded by empty cells (one
extra separator line, hence `rows + 1` lines in total); in particular a
2-column, 2-row table yields exactly one header row, the separator row
`| --- | --- |`, and one data row. -/
theorem table_markdown_shape (trs : List (List String))
    (header : List String) (rest : List (List String))
    (hrows : ∀ r ∈ trs, r ≠ []) (htrs : trs = header :: rest) :
    table_markdown_parts trs
      = ("| " ++ pyJoin " | " header ++ " |")
        :: ("| " ++ pyJoin " | " (List.replicate header.length "---")
              ++ " |")
        :: rest.map (fun row =>
            "| " ++ pyJoin " | "
              (row ++ List.replicate (header.length - row.length) "")
              ++ " |") ∧
    (table_markdown_parts trs).length = trs.length + 1 ∧
    convert_table_to_markdown [["h1", "h2"], ["d1", "d2"]]
      = "| h1 | h2 |\n| --- | --- |\n| d1 | d2 |\n" := by
  subst htrs
  have hfilter : table_rows (header :: rest) = header :: rest := by
    unfold table_rows
    rw [List.filter_eq_self]
    intro a ha
    simpa using hrows a ha
  have hparts : table_markdown_parts (header :: rest)
      = ("| " ++ pyJoin " | " header ++ " |")
        :: ("| " ++ pyJoin " | " (List.replicate header.length "---")
              ++ " |")
        :: rest.map (fun row =>
            "| " ++ pyJoin " | "
              (row ++ List.replicate (header.length - row.length) "")
              ++ " |") := by
    have hmap : (fun row => "| " ++ pyJoin " | " (padRow row header.length)
          ++ " |")
        = (fun row : List String => "| " ++ pyJoin " | "
            (row ++ List.replicate (header.length - row.length) "")
            ++ " |") := by
      funext row
      rw [padRow_eq]
    unfold table_markdown_parts
    rw [hfilter]
    dsimp only
    rw [hmap]
  have hcparts : table_markdown_parts [["h1", "h2"], ["d1", "d2"]]
      = ["| h1 | h2 |", "| --- | --- |", "| d1 | d2 |"] := by
    unfold table_markdown_parts
    rw [show table_rows [["h1", "h2"], ["d1", "d2"]]
        = [["h1", "h2"], ["d1", "d2"]] from by decide]
    dsimp only [List.map]
    rw [padRow_eq]
    rfl
  have hconv : convert_table_to_markdown [["h1", "h2"], ["d1", "d2"]]
      = "| h1 | h2 |\n| --- | --- |\n| d1 | d2 |\n" := by
    unfold convert_table_to_markdown
    rw [if_neg (by decide), hcparts]
    rfl
  refine ⟨hparts, ?_, hconv⟩
  rw [hparts]
  simp

/-- Witness for C9: a one-column header with a longer second row — one
separator cell (header width), the long row kept intact. -/
theorem table_markdown_shape_witness :
    table_markdown_parts [["x"], ["y", "z"]]
      = ["| x |", "| --- |", "| y | z |"] := by
  have h := table_markdown_shape [["x"], ["y", "z"]] ["x"] [["y", "z"]]
    (by decide) rfl
  rw [h.1]
  rfl

/-- Counterexample to claim C8: on a document where `"main"` matches text
`"a"` and `"article"` matches the longer `"bb"`, the extractor returns
`"bb"` — the longest text across all selectors — not the first selector's
non-empty text `"a"` as the claim's first-non-empty-wins strategy would. -/
theorem selector_first_counterexample :
    extract_main_content c8_select "full" = "bb" ∧
    first_nonempty_selector_text c8_select "full" = "a" ∧
    ("bb" : String) ≠ "a" := by
  refine ⟨by decide, by decide, by decide⟩

theorem longestFoldText (ts : List String) :
    ∀ acc : String,
      acc.length
        ≤ (ts.foldl (fun a t => if t.length > a.length then t else a)
            acc).length ∧
      (∀ t ∈ ts,
        t.length
          ≤ (ts.foldl (fun a t => if t.length > a.length then t else a)
              acc).length) ∧
      ((ts.foldl (fun a t => if t.length > a.length then t else a) acc)
          = acc ∨
        (ts.foldl (fun a t => if t.length > a.length then t else a) acc)
          ∈ ts) := by
  induction ts with
  | nil => intro acc; simp
  | cons t rest ih =>
      intro acc
      rw [List.foldl_cons]
      by_cases h : t.length > acc.length
      · rw [if_pos h]
        obtain ⟨ih1, ih2, ih3⟩ := ih t
        refine ⟨le_trans (le_of_lt h) ih1, fun w hw => ?_, ?_⟩
        · rcases List.mem_cons.mp hw with rfl | hw'
          · exact ih1
          · exact ih2 w hw'
        · rcases ih3 with heq | hmem
          · right
            rw [heq]
            exact List.mem_cons_self _ _
          · exact Or.inr (List.mem_cons_of_mem _ hmem)
      · rw [if_neg h]
        obtain ⟨ih1, ih2, ih3⟩ := ih acc
        refine ⟨ih1, fun w hw => ?_, ?_⟩
        · rcases List.mem_cons.mp hw with rfl | hw'
          · exact le_trans (by omega) ih1
          · exact ih2 w hw'
        · rcases ih3 with heq | hmem
          · exact Or.inl heq
          · exact Or.inr (List.mem_cons_of_mem _ hmem)

theorem selectorFoldText (select : String → List String) :
    ∀ (sels : List String) (acc : String),
      acc.length
        ≤ (sels.foldl (fun acc sel => (select sel).foldl
            (fun a t => if t.length > a.length then t else a) acc)
            acc).length ∧
      (∀ sel ∈ sels, ∀ t ∈ select sel,
        t.length
          ≤ (sels.foldl (fun acc sel => (select sel).foldl
              (fun a t => if t.length > a.length then t else a) acc)
              acc).length) ∧
      ((sels.foldl (fun acc sel => (select sel).foldl
          (fun a t => if t.length > a.length then t else a) acc) acc)
          = acc ∨
        ∃ sel ∈ sels,
          (sels.foldl (fun acc sel => (select sel).foldl
            (fun a t => if t.length > a.length then t else a) acc) acc)
            ∈ select sel) := by
  intro sels
  induction sels with
  | nil => intro acc; simp
  | cons sel rest ih =>
      intro acc
      rw [List.foldl_cons]
      obtain ⟨in1, in2, in3⟩ := longestFoldText (select sel) acc
      obtain ⟨ih1, ih2, ih3⟩ := ih ((select sel).foldl
        (fun a t => if t.length > a.length then t else a) acc)
      refine ⟨le_trans in1 ih1, fun s hs w hw => ?_, ?_⟩
      · rcases List.mem_cons.mp hs with rfl | hs'
        · exact le_trans (in2 w hw) ih1
        · exact ih2 s hs' w hw
      · rcases ih3 with heq | ⟨s, hs, hmem⟩
        · rw [heq]
          rcases in3 with heq2 | hmem2
          · exact Or.inl heq2
          · exact Or.inr ⟨sel, List.mem_cons_self _ _, hmem2⟩
        · exact Or.inr ⟨s, List.mem_cons_of_mem _ hs, hmem⟩

/-- Claim C8 amended: the extractor scans the whole selector list and keeps
the longest element text seen (not the first non-empty one): the result of
the scan dominates the length of every text matched by every selector and
is itself one of those texts (or the empty initial accumulator); the
whole-document fallback is used exactly when that longest text strips to
whitespace. -/
theorem extract_main_longest (select : String → List String)
    (full_text : String) :
    extract_main_content select full_text
      = (if pyStrip (selector_best select) = "" then full_text
         else selector_best select) ∧
    (∀ sel ∈ content_selectors, ∀ t ∈ select sel,
      t.length ≤ (selector_best select).length) ∧
    (selector_best select = "" ∨
      ∃ sel ∈ content_selectors, selector_best select ∈ select sel) := by
  obtain ⟨h1, h2, h3⟩ := selectorFoldText select content_selectors ""
  exact ⟨rfl, h2, h3⟩

/-- Witness for the amended C8 on the counterexample document: the text
`"a"` matched by `"main"` is dominated by the kept longest text. -/
theorem extract_main_longest_witness :
    ("a" : String).length ≤ (selector_best c8_select).length :=
  (extract_main_longest c8_select "full").2.1 "main" (by decide) "a"
    (by decide)

/-- Claim C6 (link policy): `_should_crawl_link` (a) returns false when the
same-domain flag is set and the link's host differs from the seed domain;
(b) returns false whenever any exclude-pattern substring occurs in the link;
(c) with a non-empty include list it returns true only if some
include-pattern substring occurs in the link; (d) with an empty include list
it accepts by default (not visited, domain check passed, no exclude match);
(e) a link whose parse raises is rejected — and, being a total function, the
embedding never raises. -/
theorem should_crawl_link_policy (netloc : String → Option String)
    (visited : List String) (link base_url : String)
    (incl excl : List String) (bdm ld : String) :
    (netloc link = some ld → bdm ≠ "" → ld ≠ bdm →
      should_crawl_link netloc true visited link base_url incl excl
        (some bdm) = false) ∧
    (∀ (sdo : Bool) (bd : Option String),
      excl.any (fun p => pyIn p link) = true →
      should_crawl_link netloc sdo visited link base_url incl excl bd
        = false) ∧
    (∀ (sdo : Bool) (bd : Option String), incl ≠ [] →
      should_crawl_link netloc sdo visited link base_url incl excl bd
          = true →
      incl.any (fun p => pyIn p link) = true) ∧
    (∀ sdo : Bool, link ∉ visited → netloc link = some ld → bdm ≠ "" →
      (sdo = true → ld = bdm) → excl.any (fun p => pyIn p link) = false →
      should_crawl_link netloc sdo visited link base_url [] excl
        (some bdm) = true) ∧
    (∀ (sdo : Bool) (bd : Option String) (incl2 : List String),
      netloc link = none →
      should_crawl_link netloc sdo visited link base_url incl2 excl bd
        = false) := by
  refine ⟨?_, ?_, ?_, ?_, ?_⟩
  · intro hnl hbd hld
    unfold should_crawl_link
    by_cases hv : link ∈ visited
    · rw [if_pos hv]
    · rw [if_neg hv]
      have hld2 : bdm ≠ ld := fun he => hld he.symm
      simp [hnl, hbd, hld2]
  · intro sdo bd hex
    unfold should_crawl_link
    by_cases hv : link ∈ visited
    · rw [if_pos hv]
    · rw [if_neg hv]
      split
      · rfl
      · rfl
      · rw [if_pos hex]
  · intro sdo bd hincl h
    unfold should_crawl_link at h
    by_cases hv : link ∈ visited
    · rw [if_pos hv] at h
      exact absurd h (by simp)
    · rw [if_neg hv] at h
      split at h
      · exact absurd h (by simp)
      · exact absurd h (by simp)
      · by_cases hex : excl.any (fun p => pyIn p link) = true
        · rw [if_pos hex] at h
          exact absurd h (by simp)
        · rw [if_neg hex, if_pos hincl] at h
          exact h
  · intro sdo hv hnl hbd hdom hex
    unfold should_crawl_link
    rw [if_neg hv]
    cases sdo with
    | false => simp [hnl, hbd, hex]
    | true =>
        have hld : ld = bdm := hdom rfl
        subst hld
        simp [hnl, hbd, hex]
  · intro sdo bd incl2 hnl
    unfold should_crawl_link
    by_cases hv : link ∈ visited
    · rw [if_pos hv]
    · rw [if_neg hv]
      cases bd with
      | none =>
          cases hburl : netloc base_url with
          | none => simp [hnl, hburl]
          | some b2 => simp [hnl, hburl]
      | some bdv =>
          by_cases hbdv : bdv = ""
          · subst hbdv
            cases hburl : netloc base_url with
            | none => simp [hnl, hburl]
            | some b2 => simp [hnl, hburl]
          · simp [hnl, hbdv]

/-- Witness for C6: with the same host oracle, empty include list, an
exclude list whose pattern does not occur, the policy accepts the link. -/
theorem should_crawl_link_policy_witness :
    should_crawl_link netlocD true [] "x" "s" [] ["#"] (some "d")
      = true := by
  have h := should_crawl_link_policy netlocD [] "x" "s" [] ["#"] "d" "d"
  exact h.2.2.2.1 true (by simp) rfl (by decide) (fun _ => rfl) (by decide)
